import Mathlib

set_option maxRecDepth 20000

/-!
Shallow embedding of `coregrind/m_hashtable.c` (the repository's hash table)
and proofs about the claims of its specification.

Modelling conventions:

* A `VgHashNode*` pointer is modelled as a `List NodeData`: the empty list is
  the NULL pointer, and a non-empty list `d :: tl` is a pointer to a node whose
  header is `d` and whose `next` pointer is `tl`.  This is the standard value
  semantics of a singly linked list; a node's `next` field is the tail of its
  list.  `NodeData` carries the key plus an `ident` field standing for the
  caller-owned payload, so that distinct nodes with equal keys can be told
  apart.
* The `VgHashNode** chain` array is modelled as a total function
  `chain : Nat → NodeRef` together with its allocated length `alloc`; a read
  `table->chain[i]` is in bounds exactly when `i < alloc`.
* `UWord`/`ULong` values (keys, indices) are modelled as `Nat`; the only
  arithmetic performed on them in the C code is `%`, `+1` and comparisons, so
  no wrap-around can occur on them.  The 32-bit `UInt n_elements` counter is
  incremented and decremented modulo `2^32`, mirroring C unsigned arithmetic.
* Fatal situations are explicit: `vg_assert` failures, NULL dereferences,
  out-of-bounds array accesses and non-terminating or unboundedly long loops
  (fuel exhaustion) are `Except` errors.  Each loop is written with a
  structural counter; where the counter mirrors the loop bound exactly this is
  stated in the doc comment.
-/

namespace MHashtable

/-- Outcome of undefined or aborting behaviour of the C code. -/
inductive Err : Type where
  | assertFail : Err
  | nullDeref : Err
  | oobRead : Err
  | oobWrite : Err
  | noFuel : Err
deriving DecidableEq

/-- Header of a `VgHashNode`: its key (`UWord key`) plus an `ident` standing
for the caller-owned payload that follows the header in memory. -/
structure NodeData : Type where
  key : Nat
  ident : Nat
deriving DecidableEq

/-- Value-semantics model of a `VgHashNode*`: `[]` is NULL, and `d :: tl` is a
pointer to the node with header `d` whose `next` field is the pointer `tl`. -/
abbrev NodeRef : Type := List NodeData

/-- The `struct _VgHashTable` state.  `chain` is the slot array
(`VgHashNode** chain`) as a function from indices to slot contents, and
`alloc` is its allocated length. -/
structure HTable : Type where
  max_size : Nat
  n_elements : Nat
  iterNode : NodeRef
  iterChain : Nat
  iterOK : Bool
  alloc : Nat
  chain : Nat → NodeRef

/-- Read of `table->chain[i]`: out of bounds when `i` is not below the
allocated length of the array. -/
def slotRead (t : HTable) (i : Nat) : Except Err NodeRef :=
  if i < t.alloc then .ok (t.chain i) else .error .oobRead

/-- Store into slot `j` of an array modelled as a function. -/
def setSlot (f : Nat → NodeRef) (j : Nat) (v : NodeRef) : Nat → NodeRef :=
  fun i => if i = j then v else f i

/-- `UInt` increment modulo `2^32`. -/
def uintInc (n : Nat) : Nat := (n + 1) % 4294967296

/-- `UInt` decrement modulo `2^32`. -/
def uintDec (n : Nat) : Nat := (n + 4294967295) % 4294967296

/-- The table `primes[N_HASH_PRIMES]` of capacities. -/
def primes : List Nat :=
  [769, 1543, 3079, 6151, 12289, 24593, 49157, 98317,
   196613, 393241, 786433, 1572869,
   3145739, 6291469, 12582917, 25165843,
   50331653, 100663319, 201326611, 402653189]

/-- `VG_(HT_construct)`: all slots NULL, capacity `primes[0]`. -/
def VG_HT_construct : HTable :=
  { max_size := 769
    n_elements := 0
    iterNode := []
    iterChain := 0
    iterOK := true
    alloc := 769
    chain := fun _ => [] }

/-- `VG_(HT_count_nodes)`. -/
def VG_HT_count_nodes (t : HTable) : Nat := t.n_elements

/-- The capacity-selection loop of `resize`: starting from
`new_chains = old + 1`, the first table entry strictly greater than it is
taken; if none is found `new_chains` keeps the value `old + 1`. -/
def newCapFun (c : Nat) : Nat :=
  match primes.find? (fun p => decide (c + 1 < p)) with
  | some p => p
  | none => c + 1

/-- The rehash placement loop of `resize`:
`while (chains[idx] == NULL) {idx++;}` — it advances while the slot of the
freshly allocated array is NULL, so it stops only on an occupied slot and
runs past the end of the allocation (out-of-bounds read) otherwise.  The
structural counter equals `newLen - idx` throughout, so its exhaustion is
exactly the out-of-bounds read at `idx = newLen`. -/
def resizeScan (chains : Nat → NodeRef) : Nat → Nat → Except Err Nat
  | 0, _ => .error .oobRead
  | gas + 1, idx =>
    match chains idx with
    | [] => resizeScan chains gas (idx + 1)
    | _ :: _ => .ok idx

/-- Entry point of the rehash placement loop on an array of length `newLen`,
starting at `idx`. -/
def resizeScanFrom (newLen : Nat) (chains : Nat → NodeRef) (idx : Nat) : Except Err Nat :=
  resizeScan chains (newLen - idx) idx

/-- The per-slot loop of `resize` over the old array
(`for (i = 0; i < old_chains; i++)`): each non-NULL old slot head is placed
at the index delivered by the placement loop, overwriting that slot.  The
structural counter equals `old_chains - i` throughout, so its exhaustion is
exactly the loop exit. -/
def rehashLoop (newMax : Nat) (old : Nat → NodeRef) :
    Nat → Nat → (Nat → NodeRef) → Except Err (Nat → NodeRef)
  | 0, _, acc => .ok acc
  | gas + 1, i, acc =>
    match old i with
    | [] => rehashLoop newMax old gas (i + 1) acc
    | d :: tl =>
      match resizeScanFrom newMax acc (d.key % newMax) with
      | .error e => .error e
      | .ok j => rehashLoop newMax old gas (i + 1) (setSlot acc j (d :: tl))

/-- `resize`: no-op at the last capacity; otherwise asserts the capacity
bounds, selects the next capacity, installs it (the C code updates
`table->max_size` before rehashing, and the rehash hashes by the new
capacity), and rehashes the old slots into a freshly zeroed array of the new
length. -/
def resize (t : HTable) : Except Err HTable :=
  if t.max_size = 402653189 then .ok t
  else if 769 ≤ t.max_size ∧ t.max_size < 402653189 then
    if t.max_size < newCapFun t.max_size ∧ 769 < newCapFun t.max_size ∧
        newCapFun t.max_size ≤ 402653189 then
      match rehashLoop (newCapFun t.max_size) t.chain t.max_size 0 (fun _ => []) with
      | .error e => .error e
      | .ok chains =>
        .ok { t with max_size := newCapFun t.max_size, alloc := newCapFun t.max_size,
                     chain := chains }
    else .error .assertFail
  else .error .assertFail

/-- The probe loop of `VG_(HT_add_node)`:
`while (table->chain[idx]) { idx++; if (idx > table->max_size-1) resize(table); }`.
The fuel only bounds the number of iterations; it is ample for every
execution that does not already end in an error. -/
def addLoop : Nat → HTable → Nat → Except Err (HTable × Nat)
  | 0, _, _ => .error .noFuel
  | fuel + 1, t, idx =>
    match slotRead t idx with
    | .error e => .error e
    | .ok [] => .ok (t, idx)
    | .ok (_ :: _) =>
      if idx + 1 > t.max_size - 1 then
        match resize t with
        | .error e => .error e
        | .ok t2 => addLoop fuel t2 (idx + 1)
      else addLoop fuel t (idx + 1)

/-- `VG_(HT_add_node)`.  The C function receives a single node pointer; here
the node is given as its header `hdr` together with whatever value `nx` its
`next` field held when the caller passed it in.  After the probe loop places
the node (`table->chain[idx] = node`), the code performs
`table->chain[idx]->next = NULL`, so the stored slot is `[hdr]` and `nx` is
discarded. -/
def VG_HT_add_node (t : HTable) (hdr : NodeData) (nx : NodeRef) : Except Err HTable :=
  match addLoop (t.alloc + 32) t (hdr.key % t.max_size) with
  | .error e => .error e
  | .ok (t1, idx) =>
    .ok { t1 with
          chain := setSlot t1.chain idx [hdr]
          n_elements := uintInc t1.n_elements
          iterOK := false }

/-- The scan loop of `VG_(HT_lookup)`: compare the key at the current slot,
then step to the next slot index, stopping at a NULL slot or at the end of
the array.  The counter starts at `t.max_size` and strictly dominates the
remaining iteration count, so its exhaustion is unreachable. -/
def lookupGo (t : HTable) (key : Nat) : Nat → Nat → NodeRef → Except Err NodeRef
  | 0, _, _ => .error .noFuel
  | gas + 1, idx, curr =>
    match curr with
    | [] => .ok []
    | d :: tl =>
      if key = d.key then .ok (d :: tl)
      else if t.max_size ≤ idx + 1 then .ok []
      else
        match slotRead t (idx + 1) with
        | .error e => .error e
        | .ok c2 => lookupGo t key gas (idx + 1) c2

/-- `VG_(HT_lookup)`: returns the pointer to the found node, or NULL. -/
def VG_HT_lookup (t : HTable) (key : Nat) : Except Err NodeRef :=
  match slotRead t (key % t.max_size) with
  | .error e => .error e
  | .ok curr => lookupGo t key t.max_size (key % t.max_size) curr

/-- The inner loop shared by `VG_(HT_remove)` and `VG_(HT_gen_remove)`:
scan slots `0, 1, ...` strictly below the bound and deliver the first
non-NULL one, or NULL when every scanned slot was NULL.  The counter equals
`bound - i` throughout, so its exhaustion is exactly the loop exit. -/
def removeScan (t : HTable) : Nat → Nat → Except Err NodeRef
  | 0, _ => .ok []
  | gas + 1, i =>
    match slotRead t i with
    | .error e => .error e
    | .ok [] => removeScan t gas (i + 1)
    | .ok (d :: tl) => .ok (d :: tl)

/-- Entry point of the inner scan: scan slots `0, ..., bound - 1`. -/
def removeScanFrom (t : HTable) (bound : Nat) : Except Err NodeRef :=
  removeScan t bound 0

/-- The outer loop of `VG_(HT_remove)`: runs `j` from `0` while
`j < n_elements`; dereferences `curr->key` (NULL dereference when `curr` is
NULL), returns the match, otherwise re-runs the inner scan with bound
`max_size - j`; when that bound is zero the inner loop body never runs and
`curr` keeps its previous value.  The counter equals `n_elements - j`
throughout, so its exhaustion is exactly the loop exit (return NULL). -/
def removeLoop (t : HTable) (key : Nat) : Nat → Nat → NodeRef → Except Err NodeRef
  | 0, _, _ => .ok []
  | gas + 1, j, curr =>
    match curr with
    | [] => .error .nullDeref
    | d :: tl =>
      if key = d.key then .ok (d :: tl)
      else
        match (if t.max_size - j = 0 then Except.ok (d :: tl) else removeScanFrom t (t.max_size - j)) with
        | .error e => .error e
        | .ok c2 => removeLoop t key gas (j + 1) c2

/-- `VG_(HT_remove)`.  Note that the unlinking statement
(`*prev_next_ptr = curr->next;`) is commented out in the source: on a match
the count is decremented and the node returned, but the slot array is left
untouched. -/
def VG_HT_remove (t : HTable) (key : Nat) : Except Err (HTable × NodeRef) :=
  match slotRead t (key % t.max_size) with
  | .error e => .error e
  | .ok curr0 =>
    match removeLoop { t with iterOK := false } key t.n_elements 0 curr0 with
    | .error e => .error e
    | .ok [] => .ok ({ t with iterOK := false }, [])
    | .ok (d :: tl) =>
      .ok ({ t with iterOK := false, n_elements := uintDec t.n_elements }, d :: tl)

/-- The outer loop of `VG_(HT_gen_remove)`: a `while (curr)` loop whose
inner scan uses the fixed bound `max_size - idx`; it can fail to terminate
(the inner scan can deliver the same non-matching node forever), which the
fuel models as an error. -/
def genRemoveLoop (t : HTable) (key : Nat) (hnode : NodeRef)
    (cmp : NodeRef → NodeRef → Int) (idx : Nat) :
    Nat → NodeRef → Except Err NodeRef
  | 0, _ => .error .noFuel
  | fuel + 1, curr =>
    match curr with
    | [] => .ok []
    | d :: tl =>
      if key = d.key ∧ cmp hnode (d :: tl) = 0 then .ok (d :: tl)
      else
        match (if t.max_size - idx = 0 then Except.ok (d :: tl) else removeScanFrom t (t.max_size - idx)) with
        | .error e => .error e
        | .ok c2 => genRemoveLoop t key hnode cmp idx fuel c2

/-- `VG_(HT_gen_remove)`: like `VG_(HT_remove)` but matching by key and
comparator; the unlinking statement is likewise commented out. -/
def VG_HT_gen_remove (t : HTable) (hnode : NodeRef) (cmp : NodeRef → NodeRef → Int) :
    Except Err (HTable × NodeRef) :=
  match hnode with
  | [] => .error .nullDeref
  | hd :: htl =>
    match slotRead t (hd.key % t.max_size) with
    | .error e => .error e
    | .ok curr0 =>
      match genRemoveLoop { t with iterOK := false } hd.key (hd :: htl) cmp
          (hd.key % t.max_size) (t.max_size + t.n_elements + 32) curr0 with
      | .error e => .error e
      | .ok [] => .ok ({ t with iterOK := false }, [])
      | .ok (d :: tl) =>
        .ok ({ t with iterOK := false, n_elements := uintDec t.n_elements }, d :: tl)

/-- The nested loops of `VG_(HT_to_array)`: the outer `for` walks slot `i`;
the inner `while` walks the chain at slot `i`, emitting its nodes and
incrementing `i` once per emitted node, so after a chain of length `n` the
next slot examined is `i + n + 1`.  The counter starts at `t.max_size + 1`
and strictly dominates the remaining iteration count (the index strictly
increases every iteration), so its exhaustion is unreachable. -/
def toArrayGo (t : HTable) : Nat → Nat → List NodeData → Except Err (List NodeData)
  | 0, _, _ => .error .noFuel
  | gas + 1, i, acc =>
    if t.max_size ≤ i then .ok acc
    else
      match slotRead t i with
      | .error e => .error e
      | .ok p => toArrayGo t gas (i + p.length + 1) (acc ++ p)

/-- `VG_(HT_to_array)`: NULL (empty) result when the count is zero;
otherwise the array writes overflow the allocation when more than
`n_elements` nodes are emitted, and `vg_assert(j == *n_elems)` fails when
fewer are. -/
def VG_HT_to_array (t : HTable) : Except Err (List NodeData) :=
  if t.n_elements = 0 then .ok []
  else
    match toArrayGo t (t.max_size + 1) 0 [] with
    | .error e => .error e
    | .ok arr =>
      if arr.length = t.n_elements then .ok arr
      else if arr.length < t.n_elements then .error .assertFail
      else .error .oobWrite

/-- `VG_(HT_ResetIter)`. -/
def VG_HT_ResetIter (t : HTable) : HTable :=
  { t with iterNode := [], iterChain := 0, iterOK := true }

/-- The slot scan of `VG_(HT_Next)`: the first non-NULL slot at index
`i ≥ iterChain` becomes the iterator node, with `iterChain` set to `i + 1`.
The counter equals `max_size - i` throughout, so its exhaustion is exactly
the loop exit (end marker). -/
def nextScan (t : HTable) : Nat → Nat → Except Err (HTable × NodeRef)
  | 0, _ => .ok (t, [])
  | gas + 1, i =>
    match slotRead t i with
    | .error e => .error e
    | .ok [] => nextScan t gas (i + 1)
    | .ok (d :: tl) =>
      .ok ({ t with iterNode := d :: tl, iterChain := i + 1 }, d :: tl)

/-- `VG_(HT_Next)`: asserts `iterOK`; follows `iterNode->next` when both
`iterNode` and its `next` are non-NULL, otherwise scans the slots from
`iterChain`; NULL is the end marker. -/
def VG_HT_Next (t : HTable) : Except Err (HTable × NodeRef) :=
  if t.iterOK = true then
    match t.iterNode with
    | d :: e :: tl =>
      .ok ({ t with iterNode := e :: tl, iterChain := uintInc t.iterChain }, e :: tl)
    | _ => nextScan t (t.max_size - t.iterChain) t.iterChain
  else .error .assertFail

/-- `VG_(HT_remove_at_Iter)`: asserts `iterOK` and a non-NULL `iterNode`;
the source computes the current chain index (`curChain`) but never uses it —
it only clears `iterNode` and decrements the count, leaving the slot array
untouched. -/
def VG_HT_remove_at_Iter (t : HTable) : Except Err HTable :=
  if t.iterOK = true then
    match t.iterNode with
    | [] => .error .assertFail
    | _ :: _ => .ok { t with iterNode := [], n_elements := uintDec t.n_elements }
  else .error .assertFail

/-- One successful public mutating operation on the table. -/
inductive Step : HTable → HTable → Prop where
  | add {t t' : HTable} (hdr : NodeData) (nx : NodeRef) :
      VG_HT_add_node t hdr nx = .ok t' → Step t t'
  | rem {t t' : HTable} (key : Nat) (r : NodeRef) :
      VG_HT_remove t key = .ok (t', r) → Step t t'
  | genRem {t t' : HTable} (hnode : NodeRef) (cmp : NodeRef → NodeRef → Int) (r : NodeRef) :
      VG_HT_gen_remove t hnode cmp = .ok (t', r) → Step t t'
  | reset {t t' : HTable} : VG_HT_ResetIter t = t' → Step t t'
  | advanceStep {t t' : HTable} (r : NodeRef) :
      VG_HT_Next t = .ok (t', r) → Step t t'
  | remAt {t t' : HTable} : VG_HT_remove_at_Iter t = .ok t' → Step t t'

/-- Table states reachable from `VG_(HT_construct)` by successful public
operations. -/
inductive Reachable : HTable → Prop where
  | construct : Reachable VG_HT_construct
  | step {t t' : HTable} : Reachable t → Step t t' → Reachable t'

/-- Extraction of a successful table result (defaulting to the fresh table);
used only to name concrete example states. -/
def getOk (r : Except Err HTable) : HTable :=
  match r with
  | .ok t => t
  | .error _ => VG_HT_construct

/-- Extraction of a successful (table, pointer) result. -/
def getOk2 (r : Except Err (HTable × NodeRef)) : HTable × NodeRef :=
  match r with
  | .ok p => p
  | .error _ => (VG_HT_construct, [])

/-- Fresh table after inserting a node with key 0 (ident 1). -/
def tA : HTable := getOk (VG_HT_add_node VG_HT_construct ⟨0, 1⟩ [])

/-- After further inserting a second node with key 0 (ident 2). -/
def tAB : HTable := getOk (VG_HT_add_node tA ⟨0, 2⟩ [])

/-- Fresh table after inserting a node with key 1 (ident 3). -/
def tK1 : HTable := getOk (VG_HT_add_node VG_HT_construct ⟨1, 3⟩ [])

/-- Fresh table after inserting a node with key 5 (ident 4). -/
def tK5 : HTable := getOk (VG_HT_add_node VG_HT_construct ⟨5, 4⟩ [])

/-- State after the successful `VG_(HT_remove)` of key 5 from `tK5`. -/
def tK5r : HTable := (getOk2 (VG_HT_remove tK5 5)).1

/-- State after the successful `VG_(HT_remove)` of key 0 from `tA`. -/
def tRem : HTable := (getOk2 (VG_HT_remove tA 0)).1

/-- Iterator state after one advance on the reset traversal of `tRem`. -/
def tRemIt : HTable := (getOk2 (VG_HT_Next (VG_HT_ResetIter tRem))).1

/-- Fresh table after inserting a node with key 5 (ident 9). -/
def tI5 : HTable := getOk (VG_HT_add_node VG_HT_construct ⟨5, 9⟩ [])

/-- Iterator state after reset and one advance on `tI5`. -/
def tI5n : HTable := (getOk2 (VG_HT_Next (VG_HT_ResetIter tI5))).1

/-- State after `VG_(HT_remove_at_Iter)` on `tI5n`. -/
def tI5r : HTable := getOk (VG_HT_remove_at_Iter tI5n)

/-- Fresh table after inserting a node with key 0 (ident 11). -/
def tS1 : HTable := getOk (VG_HT_add_node VG_HT_construct ⟨0, 11⟩ [])

/-- After further inserting a node with key 1 (ident 12). -/
def tS2 : HTable := getOk (VG_HT_add_node tS1 ⟨1, 12⟩ [])

/-- Reset traversal state of `tS2`. -/
def tS3 : HTable := VG_HT_ResetIter tS2

/-- After one advance on `tS3` (the iterator sits on the key-0 node). -/
def tS4 : HTable := (getOk2 (VG_HT_Next tS3)).1

/-- After removing key 1 (a node different from the iterator's current one)
from `tS4`. -/
def tS5 : HTable := (getOk2 (VG_HT_remove tS4 1)).1

/-- State after a successful `VG_(HT_gen_remove)` of the key-1 node from
`tK1` with an always-equal comparator. -/
def tGR : HTable := (getOk2 (VG_HT_gen_remove tK1 [⟨1, 99⟩] (fun _ _ => 0))).1

/-- A table whose capacity is the last entry of the growth sequence. -/
def tMax : HTable := { VG_HT_construct with max_size := 402653189, alloc := 402653189 }

/-- Fresh table after inserting a node with key 0 (ident 7) whose `next`
field was pre-set by the caller to a non-NULL pointer. -/
def tC10 : HTable := getOk (VG_HT_add_node VG_HT_construct ⟨0, 7⟩ [⟨1, 8⟩])

/-- Invariant: every allocated slot is NULL or holds a single node whose
`next` field is NULL. -/
def SlotInv (t : HTable) : Prop :=
  ∀ i : Nat, i < t.alloc → t.chain i = [] ∨ ∃ d : NodeData, t.chain i = [d]

theorem slotRead_ok {t : HTable} {i : Nat} {p : NodeRef}
    (h : slotRead t i = .ok p) : i < t.alloc ∧ t.chain i = p := by
  unfold slotRead at h
  split at h
  · exact ⟨by assumption, by injection h⟩
  · cases h

theorem newCap_primes : ∀ c ∈ primes, c ≠ 402653189 → newCapFun c ∈ primes := by
  decide

/-- Invariant transport through the rehash loop: if a slot predicate holds
for the scanned old slots and everywhere on the accumulator array, it holds
everywhere on a successful result. -/
theorem rehashLoop_inv (P : NodeRef → Prop) (newMax : Nat) (old : Nat → NodeRef) :
    ∀ (gas i : Nat) (acc res : Nat → NodeRef),
      (∀ k : Nat, k < gas → P (old (i + k))) →
      (∀ j : Nat, P (acc j)) →
      rehashLoop newMax old gas i acc = .ok res →
      ∀ j : Nat, P (res j) := by
  intro gas
  induction gas with
  | zero =>
    intro i acc res hold hacc h
    unfold rehashLoop at h
    injection h with h1
    subst h1
    exact hacc
  | succ g ih =>
    intro i acc res hold hacc h
    unfold rehashLoop at h
    split at h
    · refine ih (i + 1) acc res ?_ hacc h
      intro k hk
      have hx := hold (k + 1) (by omega)
      have hy : i + (k + 1) = i + 1 + k := by omega
      rw [hy] at hx
      exact hx
    · rename_i d tl heq
      split at h
      · cases h
      · rename_i j0 hscan
        refine ih (i + 1) (setSlot acc j0 (d :: tl)) res ?_ ?_ h
        · intro k hk
          have hx := hold (k + 1) (by omega)
          have hy : i + (k + 1) = i + 1 + k := by omega
          rw [hy] at hx
          exact hx
        · intro j
          unfold setSlot
          split
          · have hx := hold 0 (by omega)
            rw [Nat.add_zero, heq] at hx
            exact hx
          · exact hacc j

/-- Facts about a successful `resize`: the capacity stays in the growth
sequence, never decreases, the allocation tracks the capacity, the slot
invariant is preserved, and the count and iterator flag are untouched. -/
theorem resize_ok {t t' : HTable} (h : resize t = .ok t') :
    (t.max_size ∈ primes → t'.max_size ∈ primes) ∧
    t.max_size ≤ t'.max_size ∧
    (t.alloc = t.max_size → t'.alloc = t'.max_size) ∧
    ((t.alloc = t.max_size ∧ SlotInv t) → SlotInv t') ∧
    t'.n_elements = t.n_elements ∧ t'.iterOK = t.iterOK := by
  unfold resize at h
  split at h
  · -- at the last capacity the function returns the table unchanged
    injection h with h1
    subst h1
    exact ⟨fun hm => hm, Nat.le_refl _, fun ha => ha, fun hs => hs.2, rfl, rfl⟩
  · rename_i h1
    split at h
    · rename_i h2
      split at h
      · rename_i h3
        cases hre : rehashLoop (newCapFun t.max_size) t.chain t.max_size 0 (fun _ => []) with
        | error e => rw [hre] at h; cases h
        | ok chains =>
          rw [hre] at h
          injection h with h4
          subst h4
          refine ⟨fun hm => newCap_primes t.max_size hm h1, Nat.le_of_lt h3.1,
                 fun _ => rfl, ?_, rfl, rfl⟩
          rintro ⟨ha, hs⟩ i hi
          refine rehashLoop_inv (fun p => p = [] ∨ ∃ d : NodeData, p = [d])
            (newCapFun t.max_size) t.chain t.max_size 0 (fun _ => []) chains
            ?_ (fun _ => Or.inl rfl) hre i
          intro k hk
          rw [Nat.zero_add]
          exact hs k (by omega)
      · cases h
    · cases h

/-- Facts about a successful probe loop of the insert path. -/
theorem addLoop_ok : ∀ (fuel : Nat) {t t' : HTable} {idx i : Nat},
    addLoop fuel t idx = .ok (t', i) →
    (t.max_size ∈ primes → t'.max_size ∈ primes) ∧
    t.max_size ≤ t'.max_size ∧
    (t.alloc = t.max_size → t'.alloc = t'.max_size) ∧
    ((t.alloc = t.max_size ∧ SlotInv t) → SlotInv t') ∧
    t'.n_elements = t.n_elements ∧ t'.iterOK = t.iterOK ∧
    i < t'.alloc := by
  intro fuel
  induction fuel with
  | zero =>
    intro t t' idx i h
    unfold addLoop at h
    cases h
  | succ f ih =>
    intro t t' idx i h
    unfold addLoop at h
    split at h
    · cases h
    · rename_i heq
      injection h with h1
      injection h1 with h2 h3
      subst h2
      subst h3
      exact ⟨fun hm => hm, Nat.le_refl _, fun ha => ha, fun hsi => hsi.2, rfl, rfl,
             (slotRead_ok heq).1⟩
    · rename_i d tl heq
      split at h
      · cases hre : resize t with
        | error e => rw [hre] at h; cases h
        | ok t2 =>
          rw [hre] at h
          obtain ⟨r1, r2, r3, r4, r5, r6⟩ := resize_ok hre
          obtain ⟨a1, a2, a3, a4, a5, a6, a7⟩ := ih h
          exact ⟨fun hm => a1 (r1 hm), Nat.le_trans r2 a2, fun ha => a3 (r3 ha),
                 fun hsi => a4 ⟨r3 hsi.1, r4 hsi⟩, a5.trans r5, a6.trans r6, a7⟩
      · obtain ⟨a1, a2, a3, a4, a5, a6, a7⟩ := ih h
        exact ⟨a1, a2, a3, a4, a5, a6, a7⟩

/-- Facts about a successful `VG_(HT_add_node)`: the capacity stays in the
growth sequence and never decreases, the slot invariant is preserved, the
iterator flag is cleared, and the inserted node sits in some allocated slot
with its link field overwritten to NULL (`[hdr]`), whatever link the caller
had set. -/
theorem add_node_ok {t t' : HTable} {hdr : NodeData} {nx : NodeRef}
    (h : VG_HT_add_node t hdr nx = .ok t') :
    (t.max_size ∈ primes → t'.max_size ∈ primes) ∧
    t.max_size ≤ t'.max_size ∧
    (t.alloc = t.max_size → t'.alloc = t'.max_size) ∧
    ((t.alloc = t.max_size ∧ SlotInv t) → SlotInv t') ∧
    t'.iterOK = false ∧
    (∃ i : Nat, i < t'.alloc ∧ t'.chain i = [hdr]) := by
  unfold VG_HT_add_node at h
  cases hA : addLoop (t.alloc + 32) t (hdr.key % t.max_size) with
  | error e => rw [hA] at h; cases h
  | ok pr =>
    obtain ⟨t1, idx⟩ := pr
    rw [hA] at h
    injection h with h1
    obtain ⟨a1, a2, a3, a4, a5, a6, a7⟩ := addLoop_ok _ hA
    subst h1
    refine ⟨a1, a2, a3, ?_, rfl, ⟨idx, a7, ?_⟩⟩
    · intro hsi i hi
      have hs1 := a4 hsi
      show setSlot t1.chain idx [hdr] i = [] ∨ ∃ d : NodeData, setSlot t1.chain idx [hdr] i = [d]
      unfold setSlot
      split
      · exact Or.inr ⟨hdr, rfl⟩
      · exact hs1 i hi
    · show setSlot t1.chain idx [hdr] idx = [hdr]
      unfold setSlot
      simp

/-- A successful `VG_(HT_remove)` changes neither the capacity, the
allocation nor the slot array, and leaves the iterator flag cleared. -/
theorem remove_ok {t t' : HTable} {key : Nat} {r : NodeRef}
    (h : VG_HT_remove t key = .ok (t', r)) :
    t'.max_size = t.max_size ∧ t'.alloc = t.alloc ∧ t'.chain = t.chain ∧
    t'.iterOK = false := by
  unfold VG_HT_remove at h
  split at h
  · cases h
  · split at h
    · cases h
    · injection h with h1
      injection h1 with h2 h3
      subst h2
      exact ⟨rfl, rfl, rfl, rfl⟩
    · injection h with h1
      injection h1 with h2 h3
      subst h2
      exact ⟨rfl, rfl, rfl, rfl⟩

/-- A successful `VG_(HT_gen_remove)` changes neither the capacity, the
allocation nor the slot array, and leaves the iterator flag cleared. -/
theorem gen_remove_ok {t t' : HTable} {hnode : NodeRef}
    {cmp : NodeRef → NodeRef → Int} {r : NodeRef}
    (h : VG_HT_gen_remove t hnode cmp = .ok (t', r)) :
    t'.max_size = t.max_size ∧ t'.alloc = t.alloc ∧ t'.chain = t.chain ∧
    t'.iterOK = false := by
  unfold VG_HT_gen_remove at h
  split at h
  · cases h
  · split at h
    · cases h
    · split at h
      · cases h
      · injection h with h1
        injection h1 with h2 h3
        subst h2
        exact ⟨rfl, rfl, rfl, rfl⟩
      · injection h with h1
        injection h1 with h2 h3
        subst h2
        exact ⟨rfl, rfl, rfl, rfl⟩

/-- A successful slot scan of the iterator changes neither the capacity,
the allocation, the slot array nor the iterator flag. -/
theorem nextScan_ok : ∀ (gas : Nat) {i : Nat} {t t' : HTable} {r : NodeRef},
    nextScan t gas i = .ok (t', r) →
    t'.max_size = t.max_size ∧ t'.alloc = t.alloc ∧ t'.chain = t.chain ∧
    t'.iterOK = t.iterOK := by
  intro gas
  induction gas with
  | zero =>
    intro i t t' r h
    unfold nextScan at h
    injection h with h1
    injection h1 with h2 h3
    subst h2
    exact ⟨rfl, rfl, rfl, rfl⟩
  | succ g ih =>
    intro i t t' r h
    unfold nextScan at h
    cases hs : slotRead t i with
    | error e => rw [hs] at h; cases h
    | ok p =>
      rw [hs] at h
      cases p with
      | nil => exact ih h
      | cons d tl =>
        injection h with h1
        injection h1 with h2 h3
        subst h2
        exact ⟨rfl, rfl, rfl, rfl⟩

/-- A successful `VG_(HT_Next)` changes neither the capacity, the
allocation nor the slot array. -/
theorem next_ok {t t' : HTable} {r : NodeRef} (h : VG_HT_Next t = .ok (t', r)) :
    t'.max_size = t.max_size ∧ t'.alloc = t.alloc ∧ t'.chain = t.chain := by
  unfold VG_HT_Next at h
  split at h
  · split at h
    · injection h with h1
      injection h1 with h2 h3
      subst h2
      exact ⟨rfl, rfl, rfl⟩
    · obtain ⟨n1, n2, n3, n4⟩ := nextScan_ok _ h
      exact ⟨n1, n2, n3⟩
  · cases h

/-- A successful `VG_(HT_remove_at_Iter)` changes neither the capacity, the
allocation nor the slot array. -/
theorem remAt_ok {t t' : HTable} (h : VG_HT_remove_at_Iter t = .ok t') :
    t'.max_size = t.max_size ∧ t'.alloc = t.alloc ∧ t'.chain = t.chain := by
  unfold VG_HT_remove_at_Iter at h
  split at h
  · split at h
    · cases h
    · injection h with h1
      subst h1
      exact ⟨rfl, rfl, rfl⟩
  · cases h

/-- Preservation of the structural invariants by any successful public
operation. -/
theorem step_inv {t t' : HTable} (hs : Step t t') :
    (t.max_size ∈ primes → t'.max_size ∈ primes) ∧
    t.max_size ≤ t'.max_size ∧
    (t.alloc = t.max_size → t'.alloc = t'.max_size) ∧
    ((t.alloc = t.max_size ∧ SlotInv t) → SlotInv t') := by
  cases hs with
  | add hdr nx h =>
    obtain ⟨a1, a2, a3, a4, a5, a6⟩ := add_node_ok h
    exact ⟨a1, a2, a3, a4⟩
  | rem key r h =>
    obtain ⟨e1, e2, e3, e4⟩ := remove_ok h
    refine ⟨fun hm => e1 ▸ hm, Nat.le_of_eq e1.symm, fun ha => by rw [e1, e2, ha],
           fun hsi => ?_⟩
    intro i hi
    rw [e3]
    exact hsi.2 i (by rw [e2] at hi; exact hi)
  | genRem hnode cmp r h =>
    obtain ⟨e1, e2, e3, e4⟩ := gen_remove_ok h
    refine ⟨fun hm => e1 ▸ hm, Nat.le_of_eq e1.symm, fun ha => by rw [e1, e2, ha],
           fun hsi => ?_⟩
    intro i hi
    rw [e3]
    exact hsi.2 i (by rw [e2] at hi; exact hi)
  | reset h =>
    subst h
    exact ⟨fun hm => hm, Nat.le_refl _, fun ha => ha, fun hsi => hsi.2⟩
  | advanceStep r h =>
    obtain ⟨e1, e2, e3⟩ := next_ok h
    refine ⟨fun hm => e1 ▸ hm, Nat.le_of_eq e1.symm, fun ha => by rw [e1, e2, ha],
           fun hsi => ?_⟩
    intro i hi
    rw [e3]
    exact hsi.2 i (by rw [e2] at hi; exact hi)
  | remAt h =>
    obtain ⟨e1, e2, e3⟩ := remAt_ok h
    refine ⟨fun hm => e1 ▸ hm, Nat.le_of_eq e1.symm, fun ha => by rw [e1, e2, ha],
           fun hsi => ?_⟩
    intro i hi
    rw [e3]
    exact hsi.2 i (by rw [e2] at hi; exact hi)

/-- The three structural invariants hold in every reachable state. -/
theorem reachable_inv {t : HTable} (h : Reachable t) :
    t.max_size ∈ primes ∧ t.alloc = t.max_size ∧ SlotInv t := by
  induction h with
  | construct =>
    refine ⟨by decide, rfl, ?_⟩
    intro i hi
    exact Or.inl rfl
  | step hr hst ih =>
    obtain ⟨p1, p2, p3, p4⟩ := step_inv hst
    exact ⟨p1 ih.1, p3 ih.2.1, p4 ⟨ih.2.1, ih.2.2⟩⟩

/-- C1: the code does not prepend to the bucket chain.  After inserting a
node with key 0 into the fresh table and then a second node with key 0, the
claim demands slot 0 to hold the chain [second, first]; the code instead
leaves the first node alone at slot 0 and places the second node, with its
link cleared, at slot 1. -/
theorem C1_insert_prepend_cex :
    VG_HT_add_node VG_HT_construct ⟨0, 1⟩ [] = .ok tA ∧
    VG_HT_add_node tA ⟨0, 2⟩ [] = .ok tAB ∧
    tAB.chain 0 = [⟨0, 1⟩] ∧
    tAB.chain 1 = [⟨0, 2⟩] ∧
    tAB.chain 0 ≠ [(⟨0, 2⟩ : NodeData), ⟨0, 1⟩] := by
  refine ⟨rfl, rfl, rfl, rfl, by decide⟩

/-- C2: after inserting node ident 1 and then node ident 2, both with key 0,
lookup of key 0 returns the FIRST-inserted node (ident 1), not the most
recently inserted one (ident 2) demanded by the claim. -/
theorem C2_lookup_most_recent_cex :
    VG_HT_add_node VG_HT_construct ⟨0, 1⟩ [] = .ok tA ∧
    VG_HT_add_node tA ⟨0, 2⟩ [] = .ok tAB ∧
    VG_HT_lookup tAB 0 = .ok [⟨0, 1⟩] ∧
    ([(⟨0, 1⟩ : NodeData)] : NodeRef) ≠ [(⟨0, 2⟩ : NodeData)] := by
  refine ⟨rfl, rfl, rfl, by decide⟩

/-- C3: removing an absent key whose bucket is empty dereferences a NULL
chain head instead of returning not-found; and a successful remove does not
unlink — after removing the only node with key 5 the slot still holds the
node and lookup still returns it. -/
theorem C3_remove_cex :
    VG_HT_add_node VG_HT_construct ⟨1, 3⟩ [] = .ok tK1 ∧
    VG_HT_remove tK1 0 = .error .nullDeref ∧
    VG_HT_add_node VG_HT_construct ⟨5, 4⟩ [] = .ok tK5 ∧
    VG_HT_remove tK5 5 = .ok (tK5r, [⟨5, 4⟩]) ∧
    tK5r.n_elements = 0 ∧
    tK5r.chain 5 = [⟨5, 4⟩] ∧
    VG_HT_lookup tK5r 5 = .ok [⟨5, 4⟩] := by
  refine ⟨rfl, rfl, rfl, rfl, rfl, rfl, rfl⟩

/-- C4: growth does not re-hash the nodes into the new array.  On a table of
capacity 769 holding one node, `resize` scans the freshly zeroed new array
for a non-NULL slot (the loop condition is inverted) and runs off the end of
the allocation. -/
theorem C4_resize_cex :
    VG_HT_add_node VG_HT_construct ⟨0, 1⟩ [] = .ok tA ∧
    tA.n_elements = 1 ∧
    resize tA = .error .oobRead := by
  refine ⟨rfl, rfl, rfl⟩

/-- C5: with two nodes of key 0 stored (adjacent slots 0 and 1), the export
loop skips the slot after each visited node, emits only one of the two
nodes, and its own assertion `vg_assert(j == *n_elems)` fails, so `count()`
cannot equal the length of `to_array()`.  Moreover after a successful
remove the stored count (0) differs from the number of nodes still
reachable in the slots (slot 0 still holds the removed node). -/
theorem C5_to_array_cex :
    tAB.n_elements = 2 ∧
    VG_HT_to_array tAB = .error .assertFail ∧
    tRem.n_elements = 0 ∧
    tRem.chain 0 = [⟨0, 1⟩] := by
  refine ⟨rfl, rfl, rfl, rfl⟩

/-- C7: after inserting key 0 and then successfully removing it, `count()`
is 0, yet a fresh traversal still visits a node (the remove never unlinked
it), so the traversal does not visit exactly `count()` nodes. -/
theorem C7_iterator_count_cex :
    VG_HT_remove tA 0 = .ok (tRem, [⟨0, 1⟩]) ∧
    tRem.n_elements = 0 ∧
    VG_HT_Next (VG_HT_ResetIter tRem) = .ok (tRemIt, [⟨0, 1⟩]) ∧
    (([(⟨0, 1⟩ : NodeData)] : NodeRef) ≠ ([] : NodeRef)) := by
  refine ⟨rfl, rfl, rfl, by decide⟩

/-- C8: `VG_(HT_remove_at_Iter)` does not unlink the current node.  After
reset and one advance on a one-node table, remove-current decrements the
count and clears the cursor, but the node is still in its slot and lookup
still returns it. -/
theorem C8_remove_at_iter_cex :
    VG_HT_Next (VG_HT_ResetIter tI5) = .ok (tI5n, [⟨5, 9⟩]) ∧
    VG_HT_remove_at_Iter tI5n = .ok tI5r ∧
    tI5r.n_elements = 0 ∧
    tI5r.chain 5 = [⟨5, 9⟩] ∧
    VG_HT_lookup tI5r 5 = .ok [⟨5, 9⟩] := by
  refine ⟨rfl, rfl, rfl, rfl, rfl⟩

/-- C6: in every reachable table state the capacity is one of the values of
the fixed growth sequence `primes` (769 up to 402653189); no successful
operation ever decreases the capacity; and once the capacity is the final
sequence value, `resize` is a no-op returning the table unchanged. -/
theorem C6_capacity_sequence :
    (∀ t : HTable, Reachable t → t.max_size ∈ primes) ∧
    (∀ t t' : HTable, Step t t' → t.max_size ≤ t'.max_size) ∧
    (∀ t : HTable, t.max_size = 402653189 → resize t = .ok t) := by
  refine ⟨fun t h => (reachable_inv h).1, fun t t' hs => (step_inv hs).2.1,
         fun t h => ?_⟩
  unfold resize
  rw [if_pos h]

/-- Witness for C6 at concrete states: the fresh table's capacity is in the
sequence, one insert does not decrease it, and growth at the final capacity
is a no-op. -/
theorem C6_capacity_sequence_witness :
    VG_HT_construct.max_size ∈ primes ∧
    VG_HT_construct.max_size ≤ tA.max_size ∧
    resize tMax = .ok tMax := by
  exact ⟨C6_capacity_sequence.1 VG_HT_construct Reachable.construct,
         C6_capacity_sequence.2.1 VG_HT_construct tA (Step.add ⟨0, 1⟩ [] rfl),
         C6_capacity_sequence.2.2 tMax rfl⟩

/-- C9: advancing the iterator fails its assertion whenever the validity
flag is false; each of insert, remove-by-key and remove-by-node leaves the
flag cleared on success; and, concretely, after reset and one advance on a
two-node table, removing the other node by key and advancing again reaches
the fatal invalid-iterator assertion. -/
theorem C9_iterator_invalidation :
    (∀ t : HTable, t.iterOK = false → VG_HT_Next t = .error .assertFail) ∧
    (∀ (t t' : HTable) (hdr : NodeData) (nx : NodeRef),
       VG_HT_add_node t hdr nx = .ok t' → t'.iterOK = false) ∧
    (∀ (t t' : HTable) (key : Nat) (r : NodeRef),
       VG_HT_remove t key = .ok (t', r) → t'.iterOK = false) ∧
    (∀ (t t' : HTable) (hnode : NodeRef) (cmp : NodeRef → NodeRef → Int) (r : NodeRef),
       VG_HT_gen_remove t hnode cmp = .ok (t', r) → t'.iterOK = false) ∧
    (VG_HT_Next tS3 = .ok (tS4, [⟨0, 11⟩]) ∧
     VG_HT_remove tS4 1 = .ok (tS5, [⟨1, 12⟩]) ∧
     VG_HT_Next tS5 = .error .assertFail) := by
  refine ⟨?_, ?_, ?_, ?_, rfl, rfl, rfl⟩
  · intro t h1
    unfold VG_HT_Next
    rw [h1]
    rfl
  · intro t t' hdr nx h
    exact (add_node_ok h).2.2.2.2.1
  · intro t t' key r h
    exact (remove_ok h).2.2.2
  · intro t t' hnode cmp r h
    exact (gen_remove_ok h).2.2.2

/-- Witness for C9 at concrete states: a table with the flag cleared makes
advance fail fatally, and each mutating operation's concrete result has the
flag cleared. -/
theorem C9_iterator_invalidation_witness :
    VG_HT_Next { VG_HT_construct with iterOK := false } = .error .assertFail ∧
    tA.iterOK = false ∧
    tRem.iterOK = false ∧
    tGR.iterOK = false := by
  exact ⟨C9_iterator_invalidation.1 { VG_HT_construct with iterOK := false } rfl,
         C9_iterator_invalidation.2.1 VG_HT_construct tA ⟨0, 1⟩ [] rfl,
         C9_iterator_invalidation.2.2.1 tA tRem 0 [⟨0, 1⟩] rfl,
         C9_iterator_invalidation.2.2.2.1 tK1 tGR [⟨1, 99⟩] (fun _ _ => 0) [⟨1, 3⟩] rfl⟩

/-- C10: in every reachable state every allocated slot is NULL or holds a
single node whose link (`next`) is NULL — so each occupied slot holds
exactly one reachable node; and insert always stores the inserted node with
its link overwritten to NULL, whatever link the caller had set. -/
theorem C10_links_cleared :
    (∀ t : HTable, Reachable t → ∀ i : Nat, i < t.alloc →
       t.chain i = [] ∨ ∃ d : NodeData, t.chain i = [d]) ∧
    (∀ (t t' : HTable) (hdr : NodeData) (nx : NodeRef),
       VG_HT_add_node t hdr nx = .ok t' →
       ∃ i : Nat, i < t'.alloc ∧ t'.chain i = [hdr]) := by
  exact ⟨fun t h => (reachable_inv h).2.2,
         fun t t' hdr nx h => (add_node_ok h).2.2.2.2.2⟩

/-- Witness for C10 at a concrete state: a node inserted with a caller-set
non-NULL link is stored with the link overwritten to NULL, and the
reachable-state slot shape holds at slot 0. -/
theorem C10_links_cleared_witness :
    (tC10.chain 0 = [] ∨ ∃ d : NodeData, tC10.chain 0 = [d]) ∧
    (∃ i : Nat, i < tC10.alloc ∧ tC10.chain i = [(⟨0, 7⟩ : NodeData)]) := by
  refine ⟨?_, C10_links_cleared.2 VG_HT_construct tC10 ⟨0, 7⟩ [⟨1, 8⟩] rfl⟩
  exact C10_links_cleared.1 tC10
    (Reachable.step Reachable.construct (Step.add ⟨0, 7⟩ [⟨1, 8⟩] rfl)) 0 (by decide)

end MHashtable
